import Mathlib

/-!
Verification of `scripts/fill_grain_type.py`: a one-shot backfill utility that
fills the `grain_type` column of the `sell_transactions` table by parsing the
`description` column (a structured "BillOfSupplyItems::" payload, then a
free-text pattern) and, failing that, by rate-matching inference against
already-classified rows.

The embedding translates the Python source function by function:
  * `Json` models Python objects produced by `json.loads` (with `Json.null`
    also standing for Python `None`);
  * `unquote` models `urllib.parse.unquote` (percent-decoding + UTF-8);
  * `jsonParse` models `json.loads` (returning `none` when it would raise);
  * `parse_from_bos_description` and `parse_from_simple_description` mirror
    the two parsers;
  * `Row`, `selectEmptyRows`, `computeUpdates`, `inferGrain`, `runInfer` and
    `main` mirror the database table and the orchestration in `main()`,
    with the SQL statements given their SQLite semantics over a list of rows
    held in rowid order.
-/

namespace FillGrainType

/-- Python objects handled by the script: the image of `json.loads`,
with `null` also standing for Python `None`. -/
inductive Json where
  | null : Json
  | bool : Bool → Json
  | num : ℚ → Json
  | str : String → Json
  | arr : List Json → Json
  | obj : List (String × Json) → Json

mutual

/-- Decidable equality of `Json` values. -/
def Json.decEq : (a b : Json) → Decidable (a = b)
  | .null, .null => .isTrue rfl
  | .bool a, .bool b =>
      if h : a = b then .isTrue (by rw [h]) else .isFalse (by simp [h])
  | .num a, .num b =>
      if h : a = b then .isTrue (by rw [h]) else .isFalse (by simp [h])
  | .str a, .str b =>
      if h : a = b then .isTrue (by rw [h]) else .isFalse (by simp [h])
  | .arr xs, .arr ys =>
      match Json.decEqList xs ys with
      | .isTrue h => .isTrue (by rw [h])
      | .isFalse h => .isFalse (by simp [h])
  | .obj xs, .obj ys =>
      match Json.decEqKVs xs ys with
      | .isTrue h => .isTrue (by rw [h])
      | .isFalse h => .isFalse (by simp [h])
  | .null, .bool _ => .isFalse (by simp)
  | .null, .num _ => .isFalse (by simp)
  | .null, .str _ => .isFalse (by simp)
  | .null, .arr _ => .isFalse (by simp)
  | .null, .obj _ => .isFalse (by simp)
  | .bool _, .null => .isFalse (by simp)
  | .bool _, .num _ => .isFalse (by simp)
  | .bool _, .str _ => .isFalse (by simp)
  | .bool _, .arr _ => .isFalse (by simp)
  | .bool _, .obj _ => .isFalse (by simp)
  | .num _, .null => .isFalse (by simp)
  | .num _, .bool _ => .isFalse (by simp)
  | .num _, .str _ => .isFalse (by simp)
  | .num _, .arr _ => .isFalse (by simp)
  | .num _, .obj _ => .isFalse (by simp)
  | .str _, .null => .isFalse (by simp)
  | .str _, .bool _ => .isFalse (by simp)
  | .str _, .num _ => .isFalse (by simp)
  | .str _, .arr _ => .isFalse (by simp)
  | .str _, .obj _ => .isFalse (by simp)
  | .arr _, .null => .isFalse (by simp)
  | .arr _, .bool _ => .isFalse (by simp)
  | .arr _, .num _ => .isFalse (by simp)
  | .arr _, .str _ => .isFalse (by simp)
  | .arr _, .obj _ => .isFalse (by simp)
  | .obj _, .null => .isFalse (by simp)
  | .obj _, .bool _ => .isFalse (by simp)
  | .obj _, .num _ => .isFalse (by simp)
  | .obj _, .str _ => .isFalse (by simp)
  | .obj _, .arr _ => .isFalse (by simp)

/-- Decidable equality of `Json` lists. -/
def Json.decEqList : (a b : List Json) → Decidable (a = b)
  | [], [] => .isTrue rfl
  | [], _ :: _ => .isFalse (by simp)
  | _ :: _, [] => .isFalse (by simp)
  | x :: xs, y :: ys =>
      match Json.decEq x y with
      | .isFalse h => .isFalse (by simp [h])
      | .isTrue h =>
        match Json.decEqList xs ys with
        | .isTrue h2 => .isTrue (by rw [h, h2])
        | .isFalse h2 => .isFalse (by simp [h2])

/-- Decidable equality of `Json` key-value lists. -/
def Json.decEqKVs : (a b : List (String × Json)) → Decidable (a = b)
  | [], [] => .isTrue rfl
  | [], _ :: _ => .isFalse (by simp)
  | _ :: _, [] => .isFalse (by simp)
  | (k, v) :: xs, (k2, v2) :: ys =>
      if hk : k = k2 then
        match Json.decEq v v2 with
        | .isFalse h => .isFalse (by simp [h])
        | .isTrue h =>
          match Json.decEqKVs xs ys with
          | .isTrue h2 => .isTrue (by rw [hk, h, h2])
          | .isFalse h2 => .isFalse (by simp [h2])
      else .isFalse (by simp [hk])

end

instance : DecidableEq Json := Json.decEq

/-- Python truthiness (`if grain:` / `if not grain:` / `if items and ...`). -/
def pyTruthy : Json → Bool
  | .null => false
  | .bool b => b
  | .num q => q ≠ 0
  | .str s => s ≠ ""
  | .arr xs => ¬ xs.isEmpty
  | .obj kvs => ¬ kvs.isEmpty

/-! ### `urllib.parse.unquote` -/

/-- Hex digit value, as accepted by percent-escapes. -/
def hexVal : Char → Option Nat
  | c =>
    if '0' ≤ c ∧ c ≤ '9' then some (c.toNat - '0'.toNat)
    else if 'a' ≤ c ∧ c ≤ 'f' then some (c.toNat - 'a'.toNat + 10)
    else if 'A' ≤ c ∧ c ≤ 'F' then some (c.toNat - 'A'.toNat + 10)
    else none

/-- One UTF-8 encoded character as a byte list. -/
def utf8Bytes (c : Char) : List Nat :=
  let n := c.toNat
  if n < 0x80 then [n]
  else if n < 0x800 then [0xC0 + n / 0x40, 0x80 + n % 0x40]
  else if n < 0x10000 then
    [0xE0 + n / 0x1000, 0x80 + n / 0x40 % 0x40, 0x80 + n % 0x40]
  else
    [0xF0 + n / 0x40000, 0x80 + n / 0x1000 % 0x40, 0x80 + n / 0x40 % 0x40,
     0x80 + n % 0x40]

/-- Percent-decoding to a byte stream: `%XX` with two hex digits becomes one
byte, an invalid escape is kept literally, and every other character
contributes its UTF-8 bytes. -/
def pctBytes : List Char → List Nat
  | [] => []
  | '%' :: h1 :: h2 :: rest =>
    match hexVal h1, hexVal h2 with
    | some a, some b => (a * 16 + b) :: pctBytes rest
    | _, _ => utf8Bytes '%' ++ pctBytes (h1 :: h2 :: rest)
  | c :: rest => utf8Bytes c ++ pctBytes rest

/-- Make a character from a code point, falling back to U+FFFD. -/
def mkChar (n : Nat) : Char :=
  if h : Nat.isValidChar n then Char.ofNatAux n h else '�'

/-- Whether a byte is a UTF-8 continuation byte. -/
def isCont (b : Nat) : Bool := 0x80 ≤ b ∧ b < 0xC0

/-- UTF-8 decoding of a byte stream, replacing malformed sequences with
U+FFFD (the `errors='replace'` policy of `urllib.parse.unquote`). -/
def utf8Decode : List Nat → List Char
  | [] => []
  | b :: rest =>
    if b < 0x80 then mkChar b :: utf8Decode rest
    else if b < 0xC0 then '�' :: utf8Decode rest
    else if b < 0xE0 then
      match rest with
      | c1 :: rest2 =>
        if isCont c1 then mkChar ((b - 0xC0) * 0x40 + (c1 - 0x80)) :: utf8Decode rest2
        else '�' :: utf8Decode (c1 :: rest2)
      | [] => ['�']
    else if b < 0xF0 then
      match rest with
      | c1 :: c2 :: rest2 =>
        if isCont c1 ∧ isCont c2 then
          mkChar ((b - 0xE0) * 0x1000 + (c1 - 0x80) * 0x40 + (c2 - 0x80)) ::
            utf8Decode rest2
        else '�' :: utf8Decode (c1 :: c2 :: rest2)
      | _ => ['�']
    else if b < 0xF8 then
      match rest with
      | c1 :: c2 :: c3 :: rest2 =>
        if isCont c1 ∧ isCont c2 ∧ isCont c3 then
          mkChar ((b - 0xF0) * 0x40000 + (c1 - 0x80) * 0x1000 +
            (c2 - 0x80) * 0x40 + (c3 - 0x80)) :: utf8Decode rest2
        else '�' :: utf8Decode (c1 :: c2 :: c3 :: rest2)
      | _ => ['�']
    else '�' :: utf8Decode rest

/-- `urllib.parse.unquote`: percent-decode, then UTF-8 decode with
replacement of malformed sequences. -/
def unquote (s : String) : String := String.mk (utf8Decode (pctBytes s.data))

/-! ### `json.loads` -/

/-- JSON whitespace (the characters `json.loads` skips between tokens). -/
def jsonWs (c : Char) : Bool := c = ' ' ∨ c = '\t' ∨ c = '\n' ∨ c = '\r'

/-- Skip JSON whitespace. -/
def skipWs (cs : List Char) : List Char := cs.dropWhile jsonWs

/-- Case-sensitive literal match, returning the remainder. -/
def matchChars : List Char → List Char → Option (List Char)
  | [], cs => some cs
  | _ :: _, [] => none
  | p :: ps, c :: cs => if p = c then matchChars ps cs else none

/-- Parse the digits of a JSON integer part (`0` alone, or `[1-9][0-9]*`). -/
def jsonIntDigits : List Char → Option (List Char × List Char)
  | '0' :: cs => some (['0'], cs)
  | c :: cs =>
    if '1' ≤ c ∧ c ≤ '9' then
      some (c :: cs.takeWhile Char.isDigit, cs.dropWhile Char.isDigit)
    else none
  | [] => none

/-- Numeric value of a digit list. -/
def digitsVal (ds : List Char) : Nat :=
  ds.foldl (fun a c => a * 10 + (c.toNat - '0'.toNat)) 0

/-- Parse a JSON number following `json`'s NUMBER_RE, returning its exact
rational value. -/
def jsonNum (cs : List Char) : Option (ℚ × List Char) :=
  let (sgn, cs) := match cs with
    | '-' :: cs2 => ((-1 : ℚ), cs2)
    | _ => ((1 : ℚ), cs)
  match jsonIntDigits cs with
  | none => none
  | some (ip, cs) =>
    let (frac, cs) := match cs with
      | '.' :: cs2 =>
        (match cs2.takeWhile Char.isDigit with
         | [] => none
         | ds => some ds, if (cs2.takeWhile Char.isDigit).isEmpty then '.' :: cs2
                          else cs2.dropWhile Char.isDigit)
      | _ => (some [], cs)
    match frac with
    | none => none
    | some fds =>
      let ex : ℤ × List Char := match cs with
        | e :: cs2 =>
          if e = 'e' ∨ e = 'E' then
            let st : ℤ × List Char := match cs2 with
              | '-' :: cs4 => ((-1 : ℤ), cs4)
              | '+' :: cs4 => ((1 : ℤ), cs4)
              | _ => ((1 : ℤ), cs2)
            match st.2.takeWhile Char.isDigit with
            | [] => ((0 : ℤ), e :: cs2)
            | ds => (st.1 * digitsVal ds, st.2.dropWhile Char.isDigit)
          else ((0 : ℤ), e :: cs2)
        | [] => ((0 : ℤ), [])
      let mant : ℚ := (digitsVal ip : ℚ) + (digitsVal fds : ℚ) / (10 : ℚ) ^ fds.length
      some (sgn * mant * (10 : ℚ) ^ ex.1, ex.2)

/-- Parse a JSON string body after the opening quote. -/
def jsonStrBody : List Char → Option (List Char × List Char)
  | [] => none
  | '"' :: cs => some ([], cs)
  | '\\' :: 'u' :: h1 :: h2 :: h3 :: h4 :: cs =>
    (match hexVal h1, hexVal h2, hexVal h3, hexVal h4 with
     | some a, some b, some c, some d => some (a * 0x1000 + b * 0x100 + c * 16 + d)
     | _, _, _, _ => none).bind fun n =>
      (jsonStrBody cs).map fun (body, rest) => (mkChar n :: body, rest)
  | '\\' :: e :: cs =>
    (match e with
     | '"' => some '"'
     | '\\' => some '\\'
     | '/' => some '/'
     | 'b' => some '\x08'
     | 'f' => some '\x0c'
     | 'n' => some '\n'
     | 'r' => some '\r'
     | 't' => some '\t'
     | _ => none).bind fun d =>
      (jsonStrBody cs).map fun (body, rest) => (d :: body, rest)
  | c :: cs =>
    if c.toNat < 0x20 then none
    else (jsonStrBody cs).map fun (body, rest) => (c :: body, rest)

/-- Insert a key into an object, Python-`dict` style: an existing key keeps
its position but takes the new value, a new key is appended. -/
def insertKV (kvs : List (String × Json)) (k : String) (v : Json) :
    List (String × Json) :=
  if kvs.any (fun kv => kv.1 = k) then
    kvs.map fun kv => if kv.1 = k then (k, v) else kv
  else kvs ++ [(k, v)]

mutual

/-- Parse one JSON value (fueled recursive descent). -/
def pVal : Nat → List Char → Option (Json × List Char)
  | 0, _ => none
  | Nat.succ f, cs =>
    match skipWs cs with
    | [] => none
    | '"' :: cs2 => (jsonStrBody cs2).map fun (body, rest) => (.str (String.mk body), rest)
    | '[' :: cs2 =>
      (match skipWs cs2 with
       | ']' :: cs3 => some (.arr [], cs3)
       | _ => (pArrElems f (skipWs cs2)).map fun (xs, rest) => (.arr xs, rest))
    | '\x7b' :: cs2 =>
      (match skipWs cs2 with
       | '\x7d' :: cs3 => some (.obj [], cs3)
       | _ => (pObjMembers f [] (skipWs cs2)).map fun (kvs, rest) => (.obj kvs, rest))
    | 't' :: cs2 => (matchChars ['r', 'u', 'e'] cs2).map fun rest => (.bool true, rest)
    | 'f' :: cs2 => (matchChars ['a', 'l', 's', 'e'] cs2).map fun rest => (.bool false, rest)
    | 'n' :: cs2 => (matchChars ['u', 'l', 'l'] cs2).map fun rest => (.null, rest)
    | cs2 => (jsonNum cs2).map fun (q, rest) => (.num q, rest)

/-- Parse the elements of a non-empty JSON array, up to and including `]`. -/
def pArrElems : Nat → List Char → Option (List Json × List Char)
  | 0, _ => none
  | Nat.succ f, cs =>
    (pVal f cs).bind fun (v, rest) =>
      match skipWs rest with
      | ',' :: rest2 => (pArrElems f rest2).map fun (xs, rest3) => (v :: xs, rest3)
      | ']' :: rest2 => some ([v], rest2)
      | _ => none

/-- Parse the members of a non-empty JSON object, up to and including the
closing brace, accumulating into a Python-`dict`-like association list. -/
def pObjMembers : Nat → List (String × Json) → List Char →
    Option (List (String × Json) × List Char)
  | 0, _, _ => none
  | Nat.succ f, acc, cs =>
    match skipWs cs with
    | '"' :: cs2 =>
      (jsonStrBody cs2).bind fun (key, rest) =>
        match skipWs rest with
        | ':' :: rest2 =>
          (pVal f rest2).bind fun (v, rest3) =>
            let acc2 := insertKV acc (String.mk key) v
            match skipWs rest3 with
            | ',' :: rest4 => pObjMembers f acc2 rest4
            | '\x7d' :: rest4 => some (acc2, rest4)
            | _ => none
        | _ => none
    | _ => none

end

/-- `json.loads`: parse a complete JSON document; `none` models an exception. -/
def jsonParse (s : String) : Option Json :=
  match pVal (2 * s.length + 8) s.data with
  | some (j, rest) => if (skipWs rest).isEmpty then some j else none
  | none => none

/-! ### `parse_from_bos_description` -/

/-- `str.replace(old, new, 1)` with an empty replacement: remove the first
occurrence of `pat`, if any. -/
def removeFirstOcc (pat : List Char) : List Char → List Char
  | [] => []
  | c :: cs =>
    if pat.isPrefixOf (c :: cs) then (c :: cs).drop pat.length
    else c :: removeFirstOcc pat cs

/-- The literal marker of a structured payload. -/
def bosMarker : String := "BillOfSupplyItems::"

/-- The decoded payload text of a description:
`unquote(desc.replace('BillOfSupplyItems::', '', 1))`. -/
def bosPayload (desc : String) : String :=
  unquote (String.mk (removeFirstOcc bosMarker.data desc.data))

/-- `items and isinstance(items, list) and 'grainType' in items[0]`,
then `items[0]['grainType']`; every failing or raising path of the Python
code returns `None` (`Json.null`). -/
def bosExtract : List Json → Json
  | .obj kvs :: _ => ((kvs.lookup "grainType").getD .null)
  | _ => .null

/-- `parse_from_bos_description`: decode the payload and pull
`items[0]['grainType']`; any exception inside the `try` yields `None`. -/
def parse_from_bos_description (desc : String) : Json :=
  match jsonParse (bosPayload desc) with
  | some (.arr items) => bosExtract items
  | some (.obj kvs) =>
    match kvs.lookup "items" with
    | some (.arr items) => bosExtract items
    | _ => .null
  | _ => .null

/-! ### `parse_from_simple_description`

The regex `(?:([^:]+):)?\s*(\d+)\s*bags\s*(?:x|×)\s*([\d.]+)kg` with
`re.IGNORECASE`, applied with `re.search` (leftmost match wins; at a given
start the optional label group is tried first).  Because `[^:]+` cannot cross
a colon and must be followed by `:`, the only label candidate at a start
position runs up to the first colon. -/

/-- The characters matched by `\s` (on the ASCII inputs the script sees). -/
def isSpaceCh (c : Char) : Bool :=
  c = ' ' ∨ c = '\t' ∨ c = '\n' ∨ c = '\r' ∨ c = '\x0b' ∨ c = '\x0c'

/-- Strip leading and trailing space characters from a character list. -/
def stripChars (l : List Char) : List Char :=
  ((l.dropWhile isSpaceCh).reverse.dropWhile isSpaceCh).reverse

/-- `str.strip()`. -/
def pyStrip (s : String) : String := String.mk (stripChars s.data)

/-- Case-insensitive literal match, returning the remainder. -/
def matchLit : List Char → List Char → Option (List Char)
  | [], cs => some cs
  | _ :: _, [] => none
  | p :: ps, c :: cs => if c.toLower = p then matchLit ps cs else none

/-- Match `\s*(\d+)\s*bags\s*(?:x|×)\s*([\d.]+)kg` (case-insensitive) at the
given position.  All character classes here are disjoint from what follows
them, so the greedy quantifiers need no backtracking. -/
def matchRest (cs : List Char) : Bool :=
  let cs := cs.dropWhile isSpaceCh
  let ds := cs.takeWhile Char.isDigit
  if ds.isEmpty then false
  else
    let cs := (cs.dropWhile Char.isDigit).dropWhile isSpaceCh
    match matchLit ['b', 'a', 'g', 's'] cs with
    | none => false
    | some cs =>
      match cs.dropWhile isSpaceCh with
      | [] => false
      | x :: cs =>
        if x.toLower = 'x' ∨ x = '×' then
          let cs := cs.dropWhile isSpaceCh
          let ws := cs.takeWhile fun c => c.isDigit ∨ c = '.'
          if ws.isEmpty then false
          else (matchLit ['k', 'g'] (cs.dropWhile fun c => c.isDigit ∨ c = '.')).isSome
        else false

/-- Split at the first colon: `some (before, after)` when a colon exists. -/
def splitAtFirstColon : List Char → Option (List Char × List Char)
  | [] => none
  | c :: cs =>
    if c = ':' then some ([], cs)
    else (splitAtFirstColon cs).map fun (a, b) => (c :: a, b)

/-- Try the whole pattern at one start position.  `some g` is a match whose
label group is `g` (`none` when the optional group did not participate). -/
def tryAt (cs : List Char) : Option (Option (List Char)) :=
  let withLabel : Option (Option (List Char)) :=
    match splitAtFirstColon cs with
    | some (lab, rest) =>
      if lab ≠ [] ∧ matchRest rest then some (some lab) else none
    | none => none
  match withLabel with
  | some r => some r
  | none => if matchRest cs then some none else none

/-- `re.search`: try each start position, leftmost first. -/
def searchPat : List Char → Option (Option (List Char))
  | [] => if (tryAt []).isSome then tryAt [] else none
  | c :: cs =>
    match tryAt (c :: cs) with
    | some r => some r
    | none => searchPat cs

/-- `parse_from_simple_description`: the label group of the first match,
stripped; `None` when there is no match or the group is absent. -/
def parse_from_simple_description (desc : String) : Json :=
  match searchPat desc.data with
  | some (some lab) => .str (pyStrip (String.mk lab))
  | some none => .null
  | none => .null

/-! ### The `sell_transactions` table and the orchestration in `main()`

A database state is the list of rows in rowid order; a `SELECT` without
`ORDER BY` returns rows in that order, `UPDATE ... WHERE id = ?` rewrites
every row carrying that id, and values bound into `grain_type` are the
Python objects produced by the parsers. -/

/-- One row of `sell_transactions`. -/
structure Row where
  id : ℤ
  description : Option String
  rate_per_quintal : ℚ
  quantity : ℚ
  grain_type : Option Json
deriving DecidableEq

/-- `grain_type IS NULL OR trim(grain_type) = ''` for one value.  SQLite
`trim` removes spaces (U+0020) only, and a non-text value casts to nonempty
text. -/
def sqlEmpty : Option Json → Bool
  | none => true
  | some (.str s) => s.data.all fun c => c = ' '
  | some _ => false

/-- `SELECT ... FROM sell_transactions WHERE grain_type IS NULL OR
trim(grain_type) = ''`, in rowid order. -/
def selectEmptyRows (db : List Row) : List Row :=
  db.filter fun r => sqlEmpty r.grain_type

/-- The per-row parsing chain of the first pass: the structured parser when
the description starts with the marker, then the free-text parser when that
result is falsy. -/
def rowGrain (d : String) : Json :=
  let g1 := if d.startsWith bosMarker then parse_from_bos_description d else .null
  if pyTruthy g1 then g1 else parse_from_simple_description d

/-- The `updates` list built by the first loop of `main()`: skip rows with a
falsy description, keep `(grain, id)` when the parsing chain is truthy. -/
def computeUpdates : List Row → List (Json × ℤ)
  | [] => []
  | r :: rows =>
    match r.description with
    | none => computeUpdates rows
    | some d =>
      if d = "" then computeUpdates rows
      else if pyTruthy (rowGrain d) then (rowGrain d, r.id) :: computeUpdates rows
      else computeUpdates rows

/-- `UPDATE sell_transactions SET grain_type = ? WHERE id = ?`. -/
def updateGrain (db : List Row) (i : ℤ) (g : Json) : List Row :=
  db.map fun r => if r.id = i then { r with grain_type := some g } else r

/-- Apply the batched updates in order. -/
def applyUpdates (db : List Row) (us : List (Json × ℤ)) : List Row :=
  us.foldl (fun d u => updateGrain d u.2 u.1) db

/-- `abs(x - y) < 0.001`, written over raw numerators and denominators with
`Rat.blt` so that it evaluates by kernel reduction; `rateClose_iff` below
proves it equal to `|x - y| < 1/1000`. -/
def rateClose (a b : ℚ) : Bool :=
  Rat.blt (mkRat (a.num * b.den - b.num * a.den) (a.den * b.den))
      (mkRat 1 1000) &&
    Rat.blt (mkRat (b.num * a.den - a.num * b.den) (b.den * a.den))
      (mkRat 1 1000)

/-- The `grain_type` values of the candidate rows of the inference query:
`WHERE grain_type IS NOT NULL AND abs(rate_per_quintal - ?) < 0.001`. -/
def candGrains (db : List Row) (rate : ℚ) : List Json :=
  (db.filter fun r =>
    r.grain_type.isSome && rateClose r.rate_per_quintal rate).filterMap
    (·.grain_type)

/-- `SELECT grain_type, COUNT(*) ... GROUP BY grain_type ORDER BY cnt DESC
LIMIT 1`: the grain value with the highest occurrence count among the
candidates (SQL leaves the tie order unspecified; this embedding fixes one). -/
def inferGrain (db : List Row) (rate : ℚ) : Option Json :=
  let gs := candGrains db rate
  gs.dedup.argmax fun g => gs.count g

/-- The inference loop over the re-queried remaining rows: each iteration
queries against the current table, and on a hit updates the row and records
`(id, grain)`. -/
def runInfer (db : List Row) : List Row → List Row × List (ℤ × Json)
  | [] => (db, [])
  | r :: rest =>
    match inferGrain db r.rate_per_quintal with
    | some g =>
      let res := runInfer (updateGrain db r.id g) rest
      (res.1, (r.id, g) :: res.2)
    | none => runInfer db rest

/-- The table after the first (textual) pass and its commit. -/
def step4Db (db : List Row) : List Row :=
  applyUpdates db (computeUpdates (selectEmptyRows db))

/-- The re-queried selection feeding the inference pass. -/
def remainingOf (db : List Row) : List Row :=
  selectEmptyRows (step4Db db)

/-- Observable effects of a run, in order. -/
inductive Event where
  | backup (db : List Row)
  | printed (msg : String)
  | updated (id : ℤ) (g : Json)

/-- Everything a run produces. -/
structure RunResult where
  db : List Row
  updates : List (Json × ℤ)
  inferred : List (ℤ × Json)
  report : List (ℤ × Option Json × Option String)
  trace : List Event

/-- `main()`: back up, select, parse, update, commit, infer, commit, report. -/
def main (db0 : List Row) : RunResult :=
  let updates := computeUpdates (selectEmptyRows db0)
  let db1 := step4Db db0
  let res := runInfer db1 (remainingOf db0)
  let db2 := res.1
  let inferred := res.2
  let allIds := updates.map Prod.snd ++ inferred.map Prod.fst
  let report := if allIds.isEmpty then []
    else (db2.filter fun r => allIds.contains r.id).map fun r =>
      (r.id, r.grain_type, r.description)
  { db := db2, updates := updates, inferred := inferred, report := report,
    trace := [Event.backup db0, Event.printed "Backup created",
        Event.printed "Found sell rows with empty grain_type",
        Event.printed "Parsed grainType; applying updates"]
      ++ updates.map (fun u => Event.updated u.2 u.1)
      ++ [Event.printed "Updates applied. Committed to DB."]
      ++ inferred.map (fun p => Event.updated p.1 p.2)
      ++ [Event.printed "Inferred grainType using rate-matching."]
      ++ report.map (fun _ => Event.printed "row")
      ++ [Event.printed "Done."] }

/-! ### Derived and spec-side definitions, and concrete tables -/

/-- All columns except `grain_type` agree between an original row and its
updated image. -/
def rowShape (a b : Row) : Prop :=
  b.id = a.id ∧ b.description = a.description ∧
  b.rate_per_quintal = a.rate_per_quintal ∧ b.quantity = a.quantity

/-- The per-row effect of one `UPDATE`. -/
def updOne (u : Json × ℤ) (r : Row) : Row :=
  if r.id = u.2 then { r with grain_type := some u.1 } else r

/-- The per-row effect of a batch of updates. -/
def updFun (us : List (Json × ℤ)) (r : Row) : Row :=
  us.foldl (fun r u => updOne u r) r

/-- The candidate grain values the specification describes for the
rate-matching inference: rows "that already have a non-empty grain-type"
(neither NULL nor empty/whitespace) within the tolerance. -/
def specNonEmptyCands (db : List Row) (rate : ℚ) : List Json :=
  (db.filter fun r =>
    !(sqlEmpty r.grain_type) &&
      rateClose r.rate_per_quintal rate).filterMap (·.grain_type)

/-- The inference result the specification describes: the most frequent
grain value among the non-empty-grain candidates. -/
def specNonEmptyInfer (db : List Row) (rate : ℚ) : Option Json :=
  (specNonEmptyCands db rate).dedup.argmax fun g =>
    (specNonEmptyCands db rate).count g

/-- C1's spec example: two rows at rate 1910, one classified "Wheat", one
NULL with an unparseable description. -/
def dbC1ex : List Row :=
  [⟨1, none, 1910, 5, some (Json.str "Wheat")⟩,
   ⟨2, some "hello world", 1910, 3, none⟩]

/-- C1's counterexample table: at rate 100, two empty-string grains outnumber
the single "Wheat". -/
def dbC1cex : List Row :=
  [⟨1, none, 100, 1, none⟩, ⟨2, none, 100, 1, some (Json.str "")⟩,
   ⟨3, none, 100, 1, some (Json.str "")⟩,
   ⟨4, none, 100, 1, some (Json.str "Wheat")⟩]

/-- C1's witness table: "A" occurs twice, "B" once, all at rate 100. -/
def dbC1w : List Row :=
  [⟨1, none, 100, 1, some (Json.str "A")⟩,
   ⟨2, none, 100, 1, some (Json.str "A")⟩,
   ⟨3, none, 100, 1, some (Json.str "B")⟩]

/-- C2's counterexample table: one unresolvable row. -/
def dbC2cex : List Row := [⟨1, none, 100, 1, none⟩]

/-- C2's second counterexample table: overlapping tolerance windows make the
second run reclassify a row the first run left with an empty string. -/
def dbC2flip : List Row :=
  [⟨1, none, 100, 1, none⟩,
   ⟨2, none, mkRat 1000008 10000, 1, none⟩, ⟨3, none, mkRat 1000008 10000, 1, none⟩,
   ⟨4, none, mkRat 1000008 10000, 1, none⟩, ⟨5, none, mkRat 1000008 10000, 1, none⟩,
   ⟨6, none, 100, 1, some (Json.str "")⟩,
   ⟨7, none, 100, 1, some (Json.str "")⟩,
   ⟨8, none, mkRat 1000015 10000, 1, some (Json.str "Wheat")⟩,
   ⟨9, none, mkRat 1000015 10000, 1, some (Json.str "Wheat")⟩,
   ⟨10, none, mkRat 1000015 10000, 1, some (Json.str "Wheat")⟩,
   ⟨11, none, mkRat 1000015 10000, 1, some (Json.str "Wheat")⟩]

/-- C2's witness table: a fully classified row. -/
def dbC2w : List Row := [⟨1, none, 100, 1, some (Json.str "Wheat")⟩]

/-- C7's counterexample table: row 1 has no description and matches no
classified (non-empty-grain) row, yet an empty-string row shares its rate. -/
def dbC7cex : List Row :=
  [⟨1, none, 100, 1, none⟩, ⟨2, none, 100, 1, some (Json.str "")⟩]

/-- C7's witness table: one isolated unresolvable row. -/
def dbC7w : List Row := [⟨1, none, 100, 1, none⟩]

/-- C8's table: the textually parsed row (id 2) has a larger id than the
inferred row (id 1). -/
def dbC8 : List Row :=
  [⟨1, none, 100, 1, none⟩,
   ⟨2, some "Oat: 5 bags x 10kg", 200, 1, none⟩,
   ⟨3, none, 100, 1, some (Json.str "Rye")⟩]

/-- C9's witness table. -/
def dbC9w : List Row := [⟨1, none, 100, 1, some (Json.str "Wheat")⟩]

/-- C10's witness table: one row whose grain is a non-NULL single space. -/
def dbC10w : List Row := [⟨1, none, 100, 1, some (Json.str " ")⟩]

/-! ### Supporting lemmas -/

theorem rowShape_refl (a : Row) : rowShape a a := ⟨rfl, rfl, rfl, rfl⟩

theorem rowShape_trans {a b c : Row} (h1 : rowShape a b) (h2 : rowShape b c) :
    rowShape a c :=
  ⟨h2.1.trans h1.1, h2.2.1.trans h1.2.1, h2.2.2.1.trans h1.2.2.1,
   h2.2.2.2.trans h1.2.2.2⟩

theorem updOne_shape (u : Json × ℤ) (r : Row) : rowShape r (updOne u r) := by
  unfold updOne; split <;> exact ⟨rfl, rfl, rfl, rfl⟩

theorem updateGrain_eq_map (db : List Row) (i : ℤ) (g : Json) :
    updateGrain db i g = db.map (updOne (g, i)) := rfl

theorem updFun_nil (r : Row) : updFun [] r = r := rfl

theorem updFun_cons (u : Json × ℤ) (us : List (Json × ℤ)) (r : Row) :
    updFun (u :: us) r = updFun us (updOne u r) := rfl

theorem applyUpdates_eq_map :
    ∀ (us : List (Json × ℤ)) (db : List Row),
    applyUpdates db us = db.map (updFun us)
  | [], db => by
    show db = db.map (updFun [])
    rw [List.map_congr_left (fun a _ => updFun_nil a)]
    exact (List.map_id' db).symm
  | u :: us, db => by
    show applyUpdates (updateGrain db u.2 u.1) us = db.map (updFun (u :: us))
    rw [applyUpdates_eq_map us, updateGrain_eq_map, List.map_map]
    rfl

theorem updFun_shape : ∀ (us : List (Json × ℤ)) (r : Row),
    rowShape r (updFun us r)
  | [], r => rowShape_refl r
  | u :: us, r => by
    rw [updFun_cons]
    exact rowShape_trans (updOne_shape u r) (updFun_shape us (updOne u r))

theorem updFun_eq_self : ∀ (us : List (Json × ℤ)) (r : Row),
    (∀ u ∈ us, u.2 ≠ r.id) → updFun us r = r
  | [], _, _ => rfl
  | u :: us, r, h => by
    rw [updFun_cons]
    have h1 : updOne u r = r := by
      unfold updOne
      rw [if_neg]
      intro he
      exact h u (List.mem_cons_self u us) (he ▸ rfl)
    rw [h1]
    exact updFun_eq_self us r fun v hv => h v (List.mem_cons_of_mem u hv)

theorem computeUpdates_mem : ∀ (rows : List Row) (u : Json × ℤ),
    u ∈ computeUpdates rows →
    ∃ r ∈ rows, r.id = u.2 ∧ ∃ d, r.description = some d ∧ d ≠ "" ∧
      u.1 = rowGrain d ∧ pyTruthy (rowGrain d) = true
  | [], u, h => absurd h (List.not_mem_nil u)
  | r :: rows, u, h => by
    unfold computeUpdates at h
    split at h
    case h_1 =>
      obtain ⟨s, hs, rest⟩ := computeUpdates_mem rows u h
      exact ⟨s, List.mem_cons_of_mem r hs, rest⟩
    case h_2 d hd =>
      split at h
      · obtain ⟨s, hs, rest⟩ := computeUpdates_mem rows u h
        exact ⟨s, List.mem_cons_of_mem r hs, rest⟩
      · split at h
        · rcases List.mem_cons.mp h with he | hm
          · rename_i hde hpt
            exact ⟨r, List.mem_cons_self r rows, by rw [he],
              d, hd, hde, by rw [he], hpt⟩
          · obtain ⟨s, hs, rest⟩ := computeUpdates_mem rows u hm
            exact ⟨s, List.mem_cons_of_mem r hs, rest⟩
        · obtain ⟨s, hs, rest⟩ := computeUpdates_mem rows u h
          exact ⟨s, List.mem_cons_of_mem r hs, rest⟩

theorem rateClose_iff (a b : ℚ) : rateClose a b = true ↔ |a - b| < 1 / 1000 := by
  unfold rateClose
  rw [Bool.and_eq_true]
  rw [show mkRat (a.num * b.den - b.num * a.den) (a.den * b.den) = a - b from
    (Rat.sub_def' a b).symm]
  rw [show mkRat (b.num * a.den - a.num * b.den) (b.den * a.den) = b - a from
    (Rat.sub_def' b a).symm]
  rw [show (mkRat 1 1000 : ℚ) = 1 / 1000 from by rw [Rat.mkRat_eq_div]; norm_num]
  constructor
  · rintro ⟨h1, h2⟩
    have h1' : a - b < 1 / 1000 := h1
    have h2' : b - a < 1 / 1000 := h2
    rw [abs_lt]
    exact ⟨by linarith, h1'⟩
  · intro h
    rw [abs_lt] at h
    exact ⟨show Rat.blt (a - b) (1 / 1000) = true from h.2,
      show Rat.blt (b - a) (1 / 1000) = true from by
        have : -(1 / 1000 : ℚ) < a - b := h.1
        show b - a < 1 / 1000
        linarith⟩

theorem candGrains_mem_of {db : List Row} {rate : ℚ} {s : Row} {g : Json}
    (hs : s ∈ db) (hg : s.grain_type = some g)
    (hr : |s.rate_per_quintal - rate| < 1 / 1000) : g ∈ candGrains db rate := by
  unfold candGrains
  refine List.mem_filterMap.mpr ⟨s, List.mem_filter_of_mem hs ?_, hg⟩
  rw [hg, Bool.and_eq_true, (rateClose_iff s.rate_per_quintal rate)]
  exact ⟨rfl, hr⟩

theorem candGrains_elem {db : List Row} {rate : ℚ} {g : Json}
    (h : g ∈ candGrains db rate) :
    ∃ s ∈ db, s.grain_type = some g ∧ |s.rate_per_quintal - rate| < 1 / 1000 := by
  unfold candGrains at h
  obtain ⟨s, hs, hg⟩ := List.mem_filterMap.mp h
  have hmem := List.mem_of_mem_filter hs
  have hp := List.of_mem_filter hs
  rw [Bool.and_eq_true, rateClose_iff] at hp
  exact ⟨s, hmem, hg, hp.2⟩

theorem inferGrain_mem {db : List Row} {rate : ℚ} {g : Json}
    (h : inferGrain db rate = some g) : g ∈ candGrains db rate := by
  unfold inferGrain at h
  exact List.mem_dedup.mp (List.argmax_mem (Option.mem_def.mpr h))

theorem inferGrain_isSome_of_ne_nil {db : List Row} {rate : ℚ}
    (h : candGrains db rate ≠ []) : ∃ g, inferGrain db rate = some g := by
  unfold inferGrain
  cases hm : (candGrains db rate).dedup.argmax
      (fun g => (candGrains db rate).count g) with
  | none =>
    rw [List.argmax_eq_none] at hm
    rcases List.exists_mem_of_ne_nil _ h with ⟨g, hg⟩
    exact absurd hm (List.ne_nil_of_mem (List.mem_dedup.mpr hg))
  | some g => exact ⟨g, rfl⟩

/-- The inference query returns the grain-type with the strictly highest
occurrence count among the candidate rows, when one exists. -/
theorem inferGrain_of_strict_max {db : List Row} {rate : ℚ} {g : Json}
    (hmem : g ∈ candGrains db rate)
    (hmax : ∀ g' ∈ candGrains db rate, g' ≠ g →
      (candGrains db rate).count g' < (candGrains db rate).count g) :
    inferGrain db rate = some g := by
  unfold inferGrain
  cases hm : (candGrains db rate).dedup.argmax
      (fun g => (candGrains db rate).count g) with
  | none =>
    rw [List.argmax_eq_none] at hm
    exact absurd hm (List.ne_nil_of_mem (List.mem_dedup.mpr hmem))
  | some m =>
    have hmm : m ∈ (candGrains db rate).dedup := List.argmax_mem (Option.mem_def.mpr hm)
    by_cases hmg : m = g
    · rw [hmg]
    · have hle : (candGrains db rate).count g ≤ (candGrains db rate).count m :=
        List.le_of_mem_argmax (List.mem_dedup.mpr hmem) (Option.mem_def.mpr hm)
      have hlt := hmax m (List.mem_dedup.mp hmm) hmg
      exact absurd hle (not_le_of_lt hlt)

theorem Row.set_grain_self (r : Row) (g : Json) (h : r.grain_type = some g) :
    { r with grain_type := some g } = r := by
  cases r with
  | mk i d ra q gt =>
    have h2 : gt = some g := h
    subst h2
    rfl

/-- The inference loop only rewrites `grain_type`, and leaves alone every
row whose id is not among the processed remaining rows. -/
theorem runInfer_shape : ∀ (rem db : List Row),
    ∃ f : Row → Row, (runInfer db rem).1 = db.map f ∧
      (∀ t, rowShape t (f t)) ∧
      (∀ r : Row, (∀ x ∈ rem, x.id ≠ r.id) → f r = r)
  | [], db =>
    ⟨id, by simp [runInfer], fun t => rowShape_refl t, fun r _ => rfl⟩
  | x :: rest, db => by
    unfold runInfer
    cases hg : inferGrain db x.rate_per_quintal with
    | none =>
      obtain ⟨f, h1, h2, h3⟩ := runInfer_shape rest db
      exact ⟨f, h1, h2,
        fun r hr => h3 r fun y hy => hr y (List.mem_cons_of_mem x hy)⟩
    | some g =>
      obtain ⟨f, h1, h2, h3⟩ := runInfer_shape rest (updateGrain db x.id g)
      refine ⟨fun t => f (updOne (g, x.id) t), ?_, ?_, ?_⟩
      · show (runInfer (updateGrain db x.id g) rest).1 = _
        rw [h1, updateGrain_eq_map, List.map_map]
        rfl
      · intro t
        exact rowShape_trans (updOne_shape (g, x.id) t) (h2 (updOne (g, x.id) t))
      · intro r hr
        have hxr : x.id ≠ r.id := hr x (List.mem_cons_self x rest)
        have he : updOne (g, x.id) r = r := by
          unfold updOne
          exact if_neg fun he2 => hxr he2.symm
        show f (updOne (g, x.id) r) = r
        rw [he]
        exact h3 r fun y hy => hr y (List.mem_cons_of_mem x hy)

/-- Every inferred id comes from a row of the remaining selection. -/
theorem runInfer_inferred_mem : ∀ (rem db : List Row) (p : ℤ × Json),
    p ∈ (runInfer db rem).2 → ∃ x ∈ rem, x.id = p.1
  | [], _, p, h => absurd h (List.not_mem_nil p)
  | x :: rest, db, p, h => by
    unfold runInfer at h
    cases hg : inferGrain db x.rate_per_quintal with
    | none =>
      rw [hg] at h
      obtain ⟨y, hy, hid⟩ := runInfer_inferred_mem rest db p h
      exact ⟨y, List.mem_cons_of_mem x hy, hid⟩
    | some g =>
      rw [hg] at h
      rcases List.mem_cons.mp h with he | hm
      · exact ⟨x, List.mem_cons_self x rest, by rw [he]⟩
      · obtain ⟨y, hy, hid⟩ :=
          runInfer_inferred_mem rest (updateGrain db x.id g) p hm
        exact ⟨y, List.mem_cons_of_mem x hy, hid⟩

/-- A remaining row whose rate is carried by some non-NULL-grain row of the
table is always updated by the inference loop. -/
theorem runInfer_processes : ∀ (rem db : List Row) (r : Row), r ∈ rem →
    (∃ s ∈ db, s.grain_type.isSome = true ∧
      s.rate_per_quintal = r.rate_per_quintal) →
    r.id ∈ (runInfer db rem).2.map Prod.fst
  | [], _, r, hr, _ => absurd hr (List.not_mem_nil r)
  | x :: rest, db, r, hr, ⟨s, hs, hsg, hsr⟩ => by
    unfold runInfer
    rcases List.mem_cons.mp hr with he | hm
    · subst he
      obtain ⟨g', hg'⟩ := Option.isSome_iff_exists.mp hsg
      have hc : g' ∈ candGrains db r.rate_per_quintal :=
        candGrains_mem_of hs hg' (by rw [hsr]; simp)
      obtain ⟨g, hg⟩ := inferGrain_isSome_of_ne_nil (List.ne_nil_of_mem hc)
      rw [hg]
      exact List.mem_map_of_mem Prod.fst (List.mem_cons_self (r.id, g) _)
    · cases hg : inferGrain db x.rate_per_quintal with
      | none =>
        exact runInfer_processes rest db r hm ⟨s, hs, hsg, hsr⟩
      | some g =>
        have hs2 : updOne (g, x.id) s ∈ updateGrain db x.id g := by
          rw [updateGrain_eq_map]
          exact List.mem_map_of_mem (updOne (g, x.id)) hs
        have hsg2 : (updOne (g, x.id) s).grain_type.isSome = true := by
          unfold updOne
          split
          · rfl
          · exact hsg
        have hsr2 : (updOne (g, x.id) s).rate_per_quintal = r.rate_per_quintal :=
          (updOne_shape (g, x.id) s).2.2.1.trans hsr
        have hrec := runInfer_processes rest (updateGrain db x.id g) r hm
          ⟨updOne (g, x.id) s, hs2, hsg2, hsr2⟩
        show r.id ∈ ((x.id, g) :: (runInfer (updateGrain db x.id g) rest).2).map Prod.fst
        rw [List.map_cons]
        exact List.mem_cons_of_mem (x.id, g).1 hrec

/-- A row whose rate is shared by no other id in the table is left with its
exact `grain_type` value by the inference loop: its only possible candidate
is itself, so a hit rewrites its own value unchanged. -/
theorem runInfer_fix : ∀ (rem db : List Row) (r : Row), r ∈ db →
    (∀ t ∈ db, t.id = r.id → t = r) →
    (∀ t ∈ db, t.id ≠ r.id →
      ¬(|t.rate_per_quintal - r.rate_per_quintal| < 1 / 1000)) →
    (∀ x ∈ rem, x.id = r.id → x.rate_per_quintal = r.rate_per_quintal) →
    ∃ f : Row → Row, (runInfer db rem).1 = db.map f ∧ f r = r ∧
      (∀ t, rowShape t (f t))
  | [], db, r, _, _, _, _ =>
    ⟨id, by simp [runInfer], rfl, fun t => rowShape_refl t⟩
  | x :: rest, db, r, hr, huniq, hiso, hrate => by
    unfold runInfer
    cases hg : inferGrain db x.rate_per_quintal with
    | none =>
      exact runInfer_fix rest db r hr huniq hiso
        fun y hy => hrate y (List.mem_cons_of_mem x hy)
    | some g =>
      have hgx : updOne (g, x.id) r = r := by
        by_cases hxid : x.id = r.id
        · have hxrate : x.rate_per_quintal = r.rate_per_quintal :=
            hrate x (List.mem_cons_self x rest) hxid
          obtain ⟨s, hsdb, hsg, hsr⟩ := candGrains_elem (inferGrain_mem hg)
          rw [hxrate] at hsr
          have hsid : s.id = r.id := by
            by_contra hne
            exact hiso s hsdb hne hsr
          have hseq : s = r := huniq s hsdb hsid
          have hrg : r.grain_type = some g := hseq ▸ hsg
          unfold updOne
          rw [if_pos hxid.symm]
          exact Row.set_grain_self r g hrg
        · unfold updOne
          exact if_neg fun he2 => hxid he2.symm
      have hr2 : r ∈ updateGrain db x.id g := by
        rw [updateGrain_eq_map]
        exact hgx ▸ List.mem_map_of_mem (updOne (g, x.id)) hr
      have huniq2 : ∀ t ∈ updateGrain db x.id g, t.id = r.id → t = r := by
        intro t ht hid
        rw [updateGrain_eq_map] at ht
        obtain ⟨u, hu, hut⟩ := List.mem_map.mp ht
        have huid : u.id = r.id := by
          rw [← hid, ← hut]
          exact (updOne_shape (g, x.id) u).1.symm
        have : u = r := huniq u hu huid
        rw [← hut, this, hgx]
      have hiso2 : ∀ t ∈ updateGrain db x.id g, t.id ≠ r.id →
          ¬(|t.rate_per_quintal - r.rate_per_quintal| < 1 / 1000) := by
        intro t ht hne
        rw [updateGrain_eq_map] at ht
        obtain ⟨u, hu, hut⟩ := List.mem_map.mp ht
        have h1 : u.id = t.id := hut ▸ (updOne_shape (g, x.id) u).1.symm
        have h2 : u.rate_per_quintal = t.rate_per_quintal :=
          hut ▸ (updOne_shape (g, x.id) u).2.2.1.symm
        rw [← h2]
        exact hiso u hu (h1.symm ▸ hne)
      obtain ⟨f, h1, h2, h3⟩ := runInfer_fix rest (updateGrain db x.id g) r hr2
        huniq2 hiso2 fun y hy => hrate y (List.mem_cons_of_mem x hy)
      refine ⟨fun t => f (updOne (g, x.id) t), ?_, ?_, ?_⟩
      · show (runInfer (updateGrain db x.id g) rest).1 = _
        rw [h1, updateGrain_eq_map, List.map_map]
        rfl
      · show f (updOne (g, x.id) r) = r
        rw [hgx, h2]
      · intro t
        exact rowShape_trans (updOne_shape (g, x.id) t) (h3 (updOne (g, x.id) t))

theorem mem_selectEmptyRows {db : List Row} {r : Row} :
    r ∈ selectEmptyRows db ↔ r ∈ db ∧ sqlEmpty r.grain_type = true := by
  unfold selectEmptyRows
  exact List.mem_filter

theorem main_db_def (db : List Row) :
    (main db).db = (runInfer (step4Db db) (remainingOf db)).1 := rfl

theorem main_updates_def (db : List Row) :
    (main db).updates = computeUpdates (selectEmptyRows db) := rfl

theorem main_inferred_def (db : List Row) :
    (main db).inferred = (runInfer (step4Db db) (remainingOf db)).2 := rfl

theorem step4Db_eq_map (db : List Row) :
    step4Db db = db.map (updFun (computeUpdates (selectEmptyRows db))) :=
  applyUpdates_eq_map _ db

/-- No batched textual update aims at a row that is non-empty, or whose
description is falsy. -/
theorem computeUpdates_id_ne {db : List Row} (hn : (db.map Row.id).Nodup)
    {r : Row} (hr : r ∈ db)
    (h : sqlEmpty r.grain_type = false ∨ r.description = none ∨
      r.description = some "") :
    ∀ u ∈ computeUpdates (selectEmptyRows db), u.2 ≠ r.id := by
  intro u hu he
  obtain ⟨s, hs, hsid, d, hd, hdne, -, -⟩ := computeUpdates_mem _ u hu
  have hsdb : s ∈ db := (mem_selectEmptyRows.mp hs).1
  have hse : sqlEmpty s.grain_type = true := (mem_selectEmptyRows.mp hs).2
  have hseq : s = r :=
    List.inj_on_of_nodup_map hn hsdb hr (hsid.trans he)
  rcases h with h | h | h
  · rw [hseq, h] at hse
    exact Bool.false_ne_true hse
  · rw [hseq, h] at hd
    exact Option.noConfusion hd
  · rw [hseq, h] at hd
    exact hdne (Option.some.injEq _ _ ▸ hd).symm

/-- A full run only rewrites `grain_type`, and any row that was already
non-empty keeps its exact value (distinct ids assumed, as `id` is the key). -/
theorem main_shape (db : List Row) :
    ∃ f : Row → Row, (main db).db = db.map f ∧ (∀ t, rowShape t (f t)) ∧
      ((db.map Row.id).Nodup → ∀ r ∈ db, sqlEmpty r.grain_type = false →
        f r = r) := by
  obtain ⟨f5, h1, h2, h3⟩ := runInfer_shape (remainingOf db) (step4Db db)
  refine ⟨fun t => f5 (updFun (computeUpdates (selectEmptyRows db)) t),
    ?_, ?_, ?_⟩
  · rw [main_db_def, h1, step4Db_eq_map, List.map_map]
    rfl
  · intro t
    exact rowShape_trans (updFun_shape _ t) (h2 _)
  · intro hn r hr hne
    have hu : updFun (computeUpdates (selectEmptyRows db)) r = r :=
      updFun_eq_self _ _ (computeUpdates_id_ne hn hr (Or.inl hne))
    show f5 (updFun (computeUpdates (selectEmptyRows db)) r) = r
    rw [hu]
    apply h3
    intro x hx hxr
    have hxdb : x ∈ step4Db db := (mem_selectEmptyRows.mp hx).1
    have hxe : sqlEmpty x.grain_type = true := (mem_selectEmptyRows.mp hx).2
    rw [step4Db_eq_map] at hxdb
    obtain ⟨t, ht, hxt⟩ := List.mem_map.mp hxdb
    have htid : t.id = r.id := by
      rw [← hxr, ← hxt]
      exact (updFun_shape _ t).1.symm
    have hteq : t = r := List.inj_on_of_nodup_map hn ht hr htid
    rw [← hxt, hteq, hu] at hxe
    rw [hne] at hxe
    exact Bool.false_ne_true hxe

/-- A run never changes the id column. -/
theorem main_map_id (db : List Row) :
    (main db).db.map Row.id = db.map Row.id := by
  obtain ⟨f, h1, h2, -⟩ := main_shape db
  rw [h1, List.map_map]
  exact List.map_congr_left fun a _ => (h2 a).1

theorem dropWhile_eq_nil_or_head (p : Char → Bool) (l : List Char) :
    l.dropWhile p = [] ∨ ∃ a t, l.dropWhile p = a :: t ∧ p a = false := by
  induction l with
  | nil => exact Or.inl rfl
  | cons c cs ih =>
    by_cases h : p c
    · rw [List.dropWhile_cons_of_pos h]
      exact ih
    · exact Or.inr ⟨c, cs, List.dropWhile_cons_of_neg h, Bool.of_not_eq_true h⟩

theorem stripChars_idem (l : List Char) :
    stripChars (stripChars l) = stripChars l := by
  rcases dropWhile_eq_nil_or_head isSpaceCh l with hm | ⟨a, t, hm, ha⟩
  · unfold stripChars
    rw [hm]
    rfl
  · rcases dropWhile_eq_nil_or_head isSpaceCh (l.dropWhile isSpaceCh).reverse
      with hk | ⟨b, u, hk, hb⟩
    · unfold stripChars
      rw [hk]
      rfl
    · obtain ⟨spre, hs⟩ :=
        List.dropWhile_suffix (l := (l.dropWhile isSpaceCh).reverse) isSpaceCh
      have hkrevne :
          ((l.dropWhile isSpaceCh).reverse.dropWhile isSpaceCh).reverse ≠ [] := by
        rw [hk]
        simp
      obtain ⟨c, w, hcw⟩ : ∃ c w,
          ((l.dropWhile isSpaceCh).reverse.dropWhile isSpaceCh).reverse =
            c :: w := by
        cases hx : ((l.dropWhile isSpaceCh).reverse.dropWhile isSpaceCh).reverse
          with
        | nil => exact absurd hx hkrevne
        | cons c w => exact ⟨c, w, rfl⟩
      have hca : c = a := by
        have hm2 : l.dropWhile isSpaceCh =
            ((l.dropWhile isSpaceCh).reverse.dropWhile isSpaceCh).reverse ++
              spre.reverse := by
          conv_lhs =>
            rw [← List.reverse_reverse (l.dropWhile isSpaceCh), ← hs]
          rw [List.reverse_append]
        rw [hcw, hm] at hm2
        injection hm2 with h1 _
        exact h1.symm
      subst hca
      show stripChars
          (((l.dropWhile isSpaceCh).reverse.dropWhile isSpaceCh).reverse) =
        ((l.dropWhile isSpaceCh).reverse.dropWhile isSpaceCh).reverse
      unfold stripChars
      rw [hcw, List.dropWhile_cons_of_neg (by simp [ha]), ← hcw,
        List.reverse_reverse, hk, List.dropWhile_cons_of_neg (by simp [hb])]

theorem pyStrip_idem (s : String) : pyStrip (pyStrip s) = pyStrip s := by
  unfold pyStrip
  rw [show (String.mk (stripChars s.data)).data = stripChars s.data from rfl,
    stripChars_idem]

/-- Removing the first occurrence of a pattern from a string that starts
with it leaves the remainder. -/
theorem removeFirstOcc_append (pat cs : List Char) (h : pat ≠ []) :
    removeFirstOcc pat (pat ++ cs) = cs := by
  cases pat with
  | nil => exact absurd rfl h
  | cons p ps =>
    show removeFirstOcc (p :: ps) (p :: (ps ++ cs)) = cs
    unfold removeFirstOcc
    rw [if_pos]
    · show (p :: ps ++ cs).drop (p :: ps).length = cs
      exact List.drop_left (p :: ps) cs
    · exact List.isPrefixOf_iff_prefix.mpr (List.prefix_append (p :: ps) cs)

/-- The decoded payload of a marker-prefixed description is the unquoted
remainder. -/
theorem bosPayload_append (s : String) :
    bosPayload (bosMarker ++ s) = unquote s := by
  unfold bosPayload
  rw [show (bosMarker ++ s).data = bosMarker.data ++ s.data from
    String.data_append bosMarker s]
  rw [removeFirstOcc_append bosMarker.data s.data (by decide)]

/-! ### The claims -/

/-- C3: no row of the table is mutated before the backup (an exact copy of
the pre-run table) has been completely written and confirmed by a printed
message.  In the run's effect trace, the backup event — carrying the
pre-run table state — is the first effect, the confirming print is the
second, and (as update events are neither of those) every row mutation
occurs strictly after both. -/
theorem C3_backup_before_any_mutation : ∀ db : List Row,
    (∃ rest : List Event,
      (main db).trace =
        Event.backup db :: Event.printed "Backup created" :: rest) ∧
    ∀ (i : ℤ) (g : Json), Event.updated i g ≠ Event.backup db ∧
      Event.updated i g ≠ Event.printed "Backup created" := by
  intro db
  exact ⟨⟨_, rfl⟩, fun i g => ⟨fun h => Event.noConfusion h,
    fun h => Event.noConfusion h⟩⟩

/-- C4: the free-text parser returns the trimmed label of the first match of
`[<label>:] <integer> bags x|× <decimal>kg` (case-insensitive) when that
label is non-empty after trimming, and a falsy "no result" otherwise: every
string it returns is its own trim, `"Bajra: 12 bags × 50.5kg @ ₹1800/qt"`
yields `"Bajra"`, and `": 9 bags x 50kg @ ₹1910/qt"` (no label) yields a
falsy result. -/
theorem C4_free_text_parse :
    (∀ (s : String) (g : String),
      parse_from_simple_description s = Json.str g → pyStrip g = g) ∧
    parse_from_simple_description "Bajra: 12 bags × 50.5kg @ ₹1800/qt" =
      Json.str "Bajra" ∧
    pyTruthy (parse_from_simple_description ": 9 bags x 50kg @ ₹1910/qt") =
      false ∧
    pyTruthy (parse_from_simple_description "  : 9 bags x 50kg @ ₹1910/qt") =
      false := by
  refine ⟨?_, by decide, by decide, by decide⟩
  intro s g h
  unfold parse_from_simple_description at h
  rcases hsp : searchPat s.data with _ | lab
  · rw [hsp] at h
    exact Json.noConfusion h
  · cases lab with
    | none =>
      rw [hsp] at h
      exact Json.noConfusion h
    | some lab =>
      rw [hsp] at h
      have hg : g = pyStrip (String.mk lab) := (Json.str.injEq _ _ ▸ h).symm
      rw [hg]
      exact pyStrip_idem (String.mk lab)

/-- C4 witness: the theorem applied to the "Bajra" description shows the
returned label equals its own trim. -/
theorem C4_free_text_parse_witness : pyStrip "Bajra" = "Bajra" :=
  C4_free_text_parse.1 "Bajra: 12 bags × 50.5kg @ ₹1800/qt" "Bajra" (by decide)

/-- C5: for a description that is the payload marker followed by text whose
URL-decoding parses as JSON shaped either as an array of records or as an
object whose `items` field holds such an array, if the first record carries
a `grainType` key, the structured parser returns that value. -/
theorem C5_bos_parse : ∀ (s : String) (items : List Json)
    (kvs top : List (String × Json)) (v : Json),
    (jsonParse (unquote s) = some (Json.arr (Json.obj kvs :: items)) ∨
      (jsonParse (unquote s) = some (Json.obj top) ∧
        top.lookup "items" = some (Json.arr (Json.obj kvs :: items)))) →
    kvs.lookup "grainType" = some v →
    parse_from_bos_description (bosMarker ++ s) = v := by
  intro s items kvs top v hshape hv
  unfold parse_from_bos_description
  rw [bosPayload_append]
  rcases hshape with h | ⟨h, hit⟩
  · rw [h]
    show ((kvs.lookup "grainType").getD Json.null) = v
    rw [hv]
    rfl
  · rw [h]
    show (match top.lookup "items" with
      | some (Json.arr items) => bosExtract items
      | _ => Json.null) = v
    rw [hit]
    show ((kvs.lookup "grainType").getD Json.null) = v
    rw [hv]
    rfl

/-- C5 witness: the URL-encoded `\x7b"items":[\x7b"grainType":"Wheat"\x7d]\x7d`
payload decodes as the wrapped shape, and the parser returns `"Wheat"`. -/
theorem C5_bos_parse_witness :
    jsonParse (unquote
      "%7B%22items%22%3A%5B%7B%22grainType%22%3A%22Wheat%22%7D%5D%7D") =
      some (Json.obj
        [("items", Json.arr [Json.obj [("grainType", Json.str "Wheat")]])]) ∧
    parse_from_bos_description (bosMarker ++
      "%7B%22items%22%3A%5B%7B%22grainType%22%3A%22Wheat%22%7D%5D%7D") =
      Json.str "Wheat" :=
  ⟨by decide,
   C5_bos_parse "%7B%22items%22%3A%5B%7B%22grainType%22%3A%22Wheat%22%7D%5D%7D"
    [] [("grainType", Json.str "Wheat")]
    [("items", Json.arr [Json.obj [("grainType", Json.str "Wheat")]])]
    (Json.str "Wheat") (Or.inr ⟨by decide, by decide⟩) (by decide)⟩

/-- C6: the structured-payload parser is a total function that never
surfaces an error: a failed decode yields the falsy `None`, as do a
non-array/non-object payload, an empty item sequence and a missing `items`
field; and whenever its result is falsy, the per-row parsing chain of the
orchestration falls through to the free-text parser. -/
theorem C6_bos_total_fallthrough :
    (∀ d : String, jsonParse (bosPayload d) = none →
      parse_from_bos_description d = Json.null) ∧
    (∀ (d : String) (s : String), jsonParse (bosPayload d) = some (Json.str s) →
      parse_from_bos_description d = Json.null) ∧
    (∀ d : String, jsonParse (bosPayload d) = some (Json.arr []) →
      parse_from_bos_description d = Json.null) ∧
    (∀ (d : String) (kvs : List (String × Json)),
      jsonParse (bosPayload d) = some (Json.obj kvs) →
      kvs.lookup "items" = none → parse_from_bos_description d = Json.null) ∧
    (∀ d : String, pyTruthy (parse_from_bos_description d) = false →
      rowGrain d = parse_from_simple_description d) := by
  refine ⟨?_, ?_, ?_, ?_, ?_⟩
  · intro d h
    unfold parse_from_bos_description
    rw [h]
  · intro d s h
    unfold parse_from_bos_description
    rw [h]
  · intro d h
    unfold parse_from_bos_description
    rw [h]
    rfl
  · intro d kvs h hit
    unfold parse_from_bos_description
    rw [h]
    show (match kvs.lookup "items" with
      | some (Json.arr items) => bosExtract items
      | _ => Json.null) = Json.null
    rw [hit]
  · intro d h
    unfold rowGrain
    by_cases hb : d.startsWith bosMarker
    · rw [if_pos hb]
      show (if pyTruthy (parse_from_bos_description d) = true then
        parse_from_bos_description d else parse_from_simple_description d) =
        parse_from_simple_description d
      rw [h]
      rfl
    · rw [if_neg hb]
      rfl

/-- C6 witness: an unparseable payload yields the falsy `None`, and the
orchestration's chain for that description equals the free-text parse. -/
theorem C6_bos_total_fallthrough_witness :
    parse_from_bos_description "BillOfSupplyItems::notjson" = Json.null ∧
    rowGrain "BillOfSupplyItems::notjson" =
      parse_from_simple_description "BillOfSupplyItems::notjson" :=
  ⟨C6_bos_total_fallthrough.1 "BillOfSupplyItems::notjson" (by decide),
   C6_bos_total_fallthrough.2.2.2.2 "BillOfSupplyItems::notjson" (by decide)⟩

/-- C10: every row of the inference pass's selection whose `grain_type` is a
non-NULL (empty or all-whitespace) string satisfies its own candidate query
— its grain is `IS NOT NULL` and its rate is within `0.001` of itself — so
the inference step always updates it (its id is recorded in the inferred
list); it is never left in the unresolved set. -/
theorem C10_self_candidate : ∀ (db : List Row) (r : Row),
    r ∈ remainingOf db → r.grain_type.isSome = true →
    r.id ∈ (main db).inferred.map Prod.fst := by
  intro db r hr hsome
  rw [main_inferred_def]
  exact runInfer_processes (remainingOf db) (step4Db db) r hr
    ⟨r, (mem_selectEmptyRows.mp hr).1, hsome, rfl⟩

/-- C10 witness: a single row whose grain is the non-NULL string `" "` is
selected by the inference pass and is indeed updated. -/
theorem C10_self_candidate_witness :
    (⟨1, none, 100, 1, some (Json.str " ")⟩ : Row) ∈ remainingOf dbC10w ∧
    (1 : ℤ) ∈ (main dbC10w).inferred.map Prod.fst :=
  ⟨by decide, C10_self_candidate dbC10w ⟨1, none, 100, 1, some (Json.str " ")⟩
    (by decide) (by decide)⟩

/-- C1 counterexample: the claim says the inference assigns the most
frequent grain among rows with a NON-EMPTY grain-type within tolerance — in
`dbC1cex` that candidate set is exactly one "Wheat" row, so the claim
predicts row 1 becomes "Wheat"; the code instead counts every `IS NOT NULL`
grain, and the two empty-string rows outvote "Wheat", so row 1 becomes the
empty string. -/
theorem C1_rate_inference_counterexample :
    specNonEmptyInfer dbC1cex 100 = some (Json.str "Wheat") ∧
    (dbC1cex.filter fun r => r.id = 1).map Row.grain_type = [none] ∧
    ((main dbC1cex).db.filter fun r => r.id = 1).map Row.grain_type =
      [some (Json.str "")] ∧
    Json.str "" ≠ Json.str "Wheat" := by
  refine ⟨by decide, by decide, by decide, by decide⟩

/-- C1 amended: the rate-matching inference assigns the grain value with the
strictly highest occurrence count among all rows whose `grain_type` IS NOT
NULL (empty and all-whitespace strings included) and whose rate is within
0.001 of the row's rate; in particular, with two rows at rate 1910 — one
"Wheat", one with NULL grain and an unparseable description — a full run
fills the empty row with "Wheat". -/
theorem C1_rate_inference_amended :
    (∀ (db : List Row) (rate : ℚ) (g : Json),
      g ∈ candGrains db rate →
      (∀ g' ∈ candGrains db rate, g' ≠ g →
        (candGrains db rate).count g' < (candGrains db rate).count g) →
      inferGrain db rate = some g) ∧
    (main dbC1ex).db.map Row.grain_type =
      [some (Json.str "Wheat"), some (Json.str "Wheat")] := by
  exact ⟨fun db rate g hmem hmax => inferGrain_of_strict_max hmem hmax,
    by decide⟩

/-- C1 witness: in `dbC1w` the value "A" is a candidate at rate 100 with
strictly more occurrences than "B", and the inference returns it. -/
theorem C1_rate_inference_witness :
    Json.str "A" ∈ candGrains dbC1w 100 ∧
    inferGrain dbC1w 100 = some (Json.str "A") :=
  ⟨by decide, C1_rate_inference_amended.1 dbC1w 100 (Json.str "A")
    (by decide) (by decide)⟩

/-- C2 counterexample: a single row with NULL grain, no description and no
rate match stays unresolved, so the second run's initial selection is
nonempty — and on `dbC2flip` (overlapping tolerance windows) the second run
even changes the table state. -/
theorem C2_idempotence_counterexample :
    selectEmptyRows (main dbC2cex).db ≠ [] ∧
    (main ((main dbC2flip).db)).db ≠ (main dbC2flip).db := by
  refine ⟨by decide, by decide⟩

/-- C2 amended: if the first run leaves no row with a NULL or all-whitespace
`grain_type`, then a second run selects zero rows in its step-2 query and
leaves the database unchanged. -/
theorem C2_idempotence_amended : ∀ db : List Row,
    (∀ r ∈ (main db).db, sqlEmpty r.grain_type = false) →
    selectEmptyRows (main db).db = [] ∧
    (main ((main db).db)).db = (main db).db := by
  intro db h
  have hsel : selectEmptyRows (main db).db = [] := by
    unfold selectEmptyRows
    rw [List.filter_eq_nil_iff]
    intro r hr
    rw [h r hr]
    exact Bool.false_ne_true
  refine ⟨hsel, ?_⟩
  have h4 : step4Db (main db).db = (main db).db := by
    unfold step4Db
    rw [hsel]
    rfl
  have hrem : remainingOf (main db).db = [] := by
    unfold remainingOf
    rw [h4, hsel]
  rw [main_db_def, hrem, h4]
  rfl

/-- C2 witness: on a fully classified table both runs are no-ops. -/
theorem C2_idempotence_witness :
    selectEmptyRows (main dbC2w).db = [] ∧
    (main ((main dbC2w).db)).db = (main dbC2w).db :=
  C2_idempotence_amended dbC2w (by decide)

theorem step4Db_map_id (db : List Row) :
    (step4Db db).map Row.id = db.map Row.id := by
  rw [step4Db_eq_map, List.map_map]
  exact List.map_congr_left fun a _ => (updFun_shape _ a).1

theorem count_filter_map_id (l : List Row) (p : Row → Bool) (i : ℤ)
    (hp : ∀ r : Row, r.id = i → p r = true) :
    ((l.filter p).map Row.id).count i = (l.map Row.id).count i := by
  induction l with
  | nil => rfl
  | cons r rest ih =>
    by_cases hid : r.id = i
    · rw [List.filter_cons_of_pos (hp r hid), List.map_cons, List.map_cons]
      simp only [List.count_cons, ih]
    · cases hpr : p r
      · rw [List.filter_cons_of_neg (by simp [hpr]), List.map_cons, ih,
          List.count_cons]
        simp [hid]
      · rw [List.filter_cons_of_pos hpr, List.map_cons, List.map_cons]
        simp only [List.count_cons, ih]

theorem main_report_def (db : List Row) :
    (main db).report =
      if ((main db).updates.map Prod.snd ++
          (main db).inferred.map Prod.fst).isEmpty then []
      else ((main db).db.filter fun r =>
          ((main db).updates.map Prod.snd ++
            (main db).inferred.map Prod.fst).contains r.id).map
        fun r => (r.id, r.grain_type, r.description) := rfl

/-- C7 counterexample: row 1 of `dbC7cex` has no description, and no other
row with a non-empty (spec-classified) grain-type shares its rate within
tolerance — so the claim says its grain_type stays unchanged (NULL) — but
the run rewrites it from NULL to the empty string drawn from row 2. -/
theorem C7_unmatched_row_counterexample :
    (dbC7cex.filter fun r =>
      decide (r.id ≠ 1) && !(sqlEmpty r.grain_type) &&
        rateClose r.rate_per_quintal 100) = [] ∧
    dbC7cex.map Row.grain_type = [none, some (Json.str "")] ∧
    (main dbC7cex).db.map Row.grain_type =
      [some (Json.str ""), some (Json.str "")] := by
  refine ⟨by decide, by decide, by decide⟩

/-- C7 amended: a row whose description is empty or absent, and whose rate
is within 0.001 of no other row's rate at all (rows with empty-string or
whitespace grain-types included, since the candidate query only requires
`IS NOT NULL`), is bit-for-bit unchanged after a complete run. -/
theorem C7_unmatched_row_amended : ∀ (db : List Row) (i : ℕ) (r : Row),
    db.get? i = some r →
    (db.map Row.id).Nodup →
    (r.description = none ∨ r.description = some "") →
    (∀ t ∈ db, t.id ≠ r.id →
      ¬(|t.rate_per_quintal - r.rate_per_quintal| < 1 / 1000)) →
    (main db).db.get? i = some r := by
  intro db i r hget hn hdesc hiso
  have hr : r ∈ db := List.get?_mem hget
  have hupd : ∀ u ∈ computeUpdates (selectEmptyRows db), u.2 ≠ r.id :=
    computeUpdates_id_ne hn hr (Or.inr hdesc)
  have hf4 : updFun (computeUpdates (selectEmptyRows db)) r = r :=
    updFun_eq_self _ _ hupd
  have hrdb1 : r ∈ step4Db db := by
    rw [step4Db_eq_map]
    exact hf4 ▸ List.mem_map_of_mem _ hr
  have huniq1 : ∀ t ∈ step4Db db, t.id = r.id → t = r := by
    intro t ht hid
    rw [step4Db_eq_map] at ht
    obtain ⟨u, hu, hut⟩ := List.mem_map.mp ht
    have huid : u.id = r.id := by
      rw [← hid, ← hut]
      exact (updFun_shape _ u).1.symm
    have hur : u = r := List.inj_on_of_nodup_map hn hu hr huid
    rw [← hut, hur, hf4]
  have hiso1 : ∀ t ∈ step4Db db, t.id ≠ r.id →
      ¬(|t.rate_per_quintal - r.rate_per_quintal| < 1 / 1000) := by
    intro t ht hne
    rw [step4Db_eq_map] at ht
    obtain ⟨u, hu, hut⟩ := List.mem_map.mp ht
    have h1 : u.id = t.id := by
      rw [← hut]
      exact (updFun_shape _ u).1.symm
    have h2 : u.rate_per_quintal = t.rate_per_quintal := by
      rw [← hut]
      exact (updFun_shape _ u).2.2.1.symm
    rw [← h2]
    exact hiso u hu (h1 ▸ hne)
  have hrate1 : ∀ x ∈ remainingOf db, x.id = r.id →
      x.rate_per_quintal = r.rate_per_quintal := by
    intro x hx hid
    rw [huniq1 x (mem_selectEmptyRows.mp hx).1 hid]
  obtain ⟨f, hfd, hfr, -⟩ :=
    runInfer_fix (remainingOf db) (step4Db db) r hrdb1 huniq1 hiso1 hrate1
  have hmain : (main db).db = db.map
      (fun t => f (updFun (computeUpdates (selectEmptyRows db)) t)) := by
    rw [main_db_def, hfd, step4Db_eq_map, List.map_map]
    rfl
  rw [hmain, List.get?_map, hget]
  show some (f (updFun (computeUpdates (selectEmptyRows db)) r)) = some r
  rw [hf4, hfr]

/-- C7 witness: a lone unresolvable row is untouched by the whole run. -/
theorem C7_unmatched_row_witness :
    (main dbC7w).db.get? 0 = some ⟨1, none, 100, 1, none⟩ :=
  C7_unmatched_row_amended dbC7w 0 ⟨1, none, 100, 1, none⟩ rfl (by decide)
    (Or.inl rfl)
    (fun t ht hne => by
      rw [List.mem_singleton.mp ht] at hne
      exact absurd rfl hne)

set_option maxRecDepth 8192 in
/-- C8 counterexample: with the parsed row having id 2 and the inferred row
id 1, the final report comes back in rowid order `[1, 2]`, not in the
claimed parsed-rows-first order `[2, 1]`. -/
theorem C8_report_order_counterexample :
    (main dbC8).updates.map Prod.snd = [2] ∧
    (main dbC8).inferred.map Prod.fst = [1] ∧
    ((main dbC8).report.map fun t => t.1) = [1, 2] ∧
    ((main dbC8).report.map fun t => t.1) ≠
      (main dbC8).updates.map Prod.snd ++
        (main dbC8).inferred.map Prod.fst := by
  refine ⟨by decide, by decide, by decide, by decide⟩

/-- C8 amended: the final report prints every row touched in step 4 or
step 5 exactly once, but ordered by the table's rowid order (the report is
a sub-list of the table's projection), regardless of which step touched the
row. -/
theorem C8_report_amended : ∀ db : List Row, (db.map Row.id).Nodup →
    List.Sublist (main db).report
      ((main db).db.map fun r => (r.id, r.grain_type, r.description)) ∧
    ∀ i ∈ (main db).updates.map Prod.snd ++ (main db).inferred.map Prod.fst,
      ((main db).report.map fun t => t.1).count i = 1 := by
  intro db hn
  by_cases hemp : ((main db).updates.map Prod.snd ++
      (main db).inferred.map Prod.fst).isEmpty
  · rw [main_report_def, if_pos hemp]
    refine ⟨List.nil_sublist _, ?_⟩
    intro i hi
    rw [List.isEmpty_iff] at hemp
    rw [hemp] at hi
    exact absurd hi (List.not_mem_nil i)
  · rw [main_report_def, if_neg hemp]
    constructor
    · exact List.Sublist.map _ (List.filter_sublist _)
    · intro i hi
      rw [List.map_map]
      have hp : ∀ r : Row, r.id = i →
          (((main db).updates.map Prod.snd ++
            (main db).inferred.map Prod.fst).contains r.id) = true := by
        intro r hr
        rw [hr]
        exact List.elem_eq_true_of_mem hi
      have hcount := count_filter_map_id ((main db).db) _ i hp
      have hgoal : (((main db).db.filter fun r =>
          ((main db).updates.map Prod.snd ++
            (main db).inferred.map Prod.fst).contains r.id).map
          ((fun t => t.1) ∘ fun r => (r.id, r.grain_type, r.description))) =
          (((main db).db.filter fun r =>
          ((main db).updates.map Prod.snd ++
            (main db).inferred.map Prod.fst).contains r.id).map Row.id) := rfl
      rw [hgoal, hcount, main_map_id]
      have hmem : i ∈ db.map Row.id := by
        rcases List.mem_append.mp hi with h | h
        · obtain ⟨u, hu, hui⟩ := List.mem_map.mp h
          obtain ⟨s, hs, hsid, -⟩ := computeUpdates_mem _ u hu
          rw [← hui, ← hsid]
          exact List.mem_map_of_mem Row.id (mem_selectEmptyRows.mp hs).1
        · obtain ⟨q, hq, hqi⟩ := List.mem_map.mp h
          rw [main_inferred_def] at hq
          obtain ⟨x, hx, hxid⟩ := runInfer_inferred_mem _ _ q hq
          rw [← step4Db_map_id]
          rw [← hqi, ← hxid]
          exact List.mem_map_of_mem Row.id (mem_selectEmptyRows.mp hx).1
      exact List.count_eq_one_of_mem hn hmem

set_option maxRecDepth 8192 in
/-- C8 witness: on `dbC8` the touched id 2 is printed exactly once. -/
theorem C8_report_witness :
    ((main dbC8).report.map fun t => t.1).count 2 = 1 :=
  (C8_report_amended dbC8 (by decide)).2 2 (by decide)

/-- C9: a run never modifies any column other than `grain_type` — every
row keeps its id, description, rate_per_quintal and quantity (positionally)
— and every row whose `grain_type` was non-empty after trimming at the
start keeps its exact value (row ids are assumed distinct, as `id` is the
table's key). -/
theorem C9_only_grain_type_mutated : ∀ db : List Row,
    (db.map Row.id).Nodup →
    (main db).db.length = db.length ∧
    ∀ (i : ℕ) (r : Row), db.get? i = some r →
      ∃ r' : Row, (main db).db.get? i = some r' ∧ r'.id = r.id ∧
        r'.description = r.description ∧
        r'.rate_per_quintal = r.rate_per_quintal ∧ r'.quantity = r.quantity ∧
        (sqlEmpty r.grain_type = false → r' = r) := by
  intro db hn
  obtain ⟨f, h1, h2, h3⟩ := main_shape db
  constructor
  · rw [h1, List.length_map]
  · intro i r hget
    refine ⟨f r, ?_, (h2 r).1, (h2 r).2.1, (h2 r).2.2.1, (h2 r).2.2.2, ?_⟩
    · rw [h1, List.get?_map, hget]
      rfl
    · intro hne
      exact h3 hn r (List.get?_mem hget) hne

/-- C9 witness: a classified row survives a run exactly. -/
theorem C9_only_grain_type_mutated_witness :
    (main dbC9w).db.length = dbC9w.length ∧
    ∃ r' : Row, (main dbC9w).db.get? 0 = some r' ∧
      r' = ⟨1, none, 100, 1, some (Json.str "Wheat")⟩ := by
  obtain ⟨hlen, hrow⟩ := C9_only_grain_type_mutated dbC9w (by decide)
  obtain ⟨r', hget, -, -, -, -, hpres⟩ :=
    hrow 0 ⟨1, none, 100, 1, some (Json.str "Wheat")⟩ rfl
  exact ⟨hlen, r', hget, hpres (by decide)⟩

end FillGrainType
